import Mathlib

/-!
Verification of the Super-Timer interval-timer builder and runner
(`src/app/page.tsx`).  Strings are modelled as `List Char`, JavaScript
numbers as `Int` (all quantities involved are exact integers), and the
React component state as an explicit record `AppState`.  Each stateful
handler of the component becomes a state-passing function; the
`setInterval` tick callback becomes `programTick`, guarded by the flag
`intervalActive` that models whether an interval is currently installed.
-/

namespace SuperTimer

/-! ### Characters and digit strings -/

/-- Numeric value of a decimal digit character. -/
def digitVal (c : Char) : Nat := c.toNat - 48

/-- The characters treated as whitespace by JavaScript `parseInt`
(leading `StrWhiteSpace` is skipped). -/
def isJSWhitespace (c : Char) : Bool :=
  c = ' ' || c = '\t' || c = '\n' || c = '\r' || c = '\x0b' || c = '\x0c'

/-- Decimal digit list of a natural number, most significant digit first
(the result of JavaScript `Number.prototype.toString` on a non-negative
integer). -/
def natDigits (n : Nat) : List Char :=
  if n < 10 then [Char.ofNat (48 + n)]
  else natDigits (n / 10) ++ [Char.ofNat (48 + n % 10)]
decreasing_by exact Nat.div_lt_self (by omega) (by omega)

/-- `String.prototype.padStart(2, "0")`. -/
def padStart2 (s : List Char) : List Char :=
  if s.length < 2 then List.replicate (2 - s.length) '0' ++ s else s

/-- `input.split(":")` : split a string at every colon; the empty string
splits to `[""]`. -/
def splitCols : List Char → List (List Char)
  | [] => [[]]
  | c :: cs =>
    if c = ':' then [] :: splitCols cs
    else
      match splitCols cs with
      | [] => [[c]]
      | f :: r => (c :: f) :: r

/-- Value of a (big-endian) digit list. -/
def digitsToNat (l : List Char) : Nat :=
  l.foldl (fun a c => a * 10 + digitVal c) 0

/-- Helper for `jsParseInt`: read the longest digit prefix; `none` (NaN)
if there is no digit. -/
def jsParseDigits (l : List Char) (sign : Int) : Option Int :=
  let d := l.takeWhile Char.isDigit
  if d.isEmpty then none else some (sign * (digitsToNat d : Int))

/-- JavaScript `parseInt(s, 10)`: skip leading whitespace, read an
optional sign, then the longest prefix of decimal digits, ignoring any
trailing characters; `none` models NaN. -/
def jsParseInt (s : List Char) : Option Int :=
  match s.dropWhile isJSWhitespace with
  | [] => none
  | c :: rest =>
    if c = '+' then jsParseDigits rest 1
    else if c = '-' then jsParseDigits rest (-1)
    else jsParseDigits (c :: rest) 1

/-! ### `formatTime` and `parseTimeInput` (page.tsx lines 28-51) -/

/-- `formatTime`: format a non-negative number of seconds as
`HH:MM:SS` with two-digit zero-padded fields. -/
def formatTime (totalSeconds : Nat) : List Char :=
  let hrs := totalSeconds / 3600
  let mins := totalSeconds % 3600 / 60
  let secs := totalSeconds % 60
  padStart2 (natDigits hrs) ++ ':' ::
    (padStart2 (natDigits mins) ++ ':' :: padStart2 (natDigits secs))

/-- `parseTimeInput`: split on colons, `parseInt` every field, reject if
any field is NaN, then interpret 3 fields as `HH:MM:SS`, 2 as `MM:SS`,
1 as `SS`, anything else as a failure. -/
def parseTimeInput (input : List Char) : Option Int :=
  let parts := (splitCols input).map jsParseInt
  if parts.any Option.isNone then none
  else
    match parts with
    | [some hrs, some mins, some secs] => some (hrs * 3600 + mins * 60 + secs)
    | [some mins, some secs] => some (mins * 60 + secs)
    | [some x] => some x
    | _ => none

/-! ### Instructions (page.tsx lines 4-16) -/

/-- The `time` variant of `Instruction` (`TimeInstruction` in the
source): an identifier and a duration in seconds. -/
structure TimeInstruction where
  id : Nat
  time : Int
  deriving Repr, DecidableEq

/-- The `Instruction` tagged union: a `time` instruction or a `repeat`
instruction `{ id, times }`. -/
inductive Instruction where
  | timeI (ti : TimeInstruction)
  | repeatI (id : Nat) (times : Int)
  deriving Repr, DecidableEq

/-- The identifier carried by an instruction. -/
def instId : Instruction → Nat
  | .timeI ti => ti.id
  | .repeatI id _ => id

/-- `inst.type === "time"`. -/
def isTimeInstr : Instruction → Bool
  | .timeI _ => true
  | .repeatI _ _ => false

/-- A saved timer record `{ id, name, instructions }`. -/
structure SavedTimer where
  id : Nat
  name : List Char
  instructions : List Instruction
  deriving Repr, DecidableEq

/-! ### Sequence expansion (page.tsx lines 123-136) -/

/-- Loop of `flattenInstructionsEntire`: `flattened` is the accumulator
array; a `time` instruction is pushed, a `repeat` instruction pushes a
snapshot of the accumulator `times` times (zero times when `times` is
not positive, as the `for` loop then runs no iteration). -/
def flattenGo (flattened : List TimeInstruction) :
    List Instruction → List TimeInstruction
  | [] => flattened
  | Instruction.timeI ti :: rest => flattenGo (flattened ++ [ti]) rest
  | Instruction.repeatI _ times :: rest =>
      flattenGo (flattened ++ (List.replicate times.toNat flattened).flatten) rest

/-- `flattenInstructionsEntire`: expand an instruction list into the
flat list of time instructions the runner executes. -/
def flattenInstructionsEntire (instrs : List Instruction) : List TimeInstruction :=
  flattenGo [] instrs

/-! ### Component state -/

/-- `programState`: `{ index, countdown }`. -/
structure ProgState where
  index : Nat
  countdown : Int
  deriving Repr, DecidableEq

/-- The React component state of `Home`, one field per `useState` /
`useRef` hook.  `intervalActive` models whether a `setInterval` handle
is currently installed (`programIntervalRef` holding a live interval);
`cueCount` counts the notification-audio side effects. -/
structure AppState where
  instructions : List Instruction
  timeInput : List Char
  repeatInput : Int
  instructionIdRef : Nat
  editingRef : Bool
  flattenedSequence : List TimeInstruction
  programState : ProgState
  isProgramRunning : Bool
  intervalActive : Bool
  cueCount : Nat
  savedTimers : List SavedTimer
  savedTimerName : List Char
  loadedTimerId : Option Nat
  savedTimerIdRef : Nat
  deriving Repr, DecidableEq

/-- The component's initial state (`useState` / `useRef` initial
values). -/
def initialState : AppState where
  instructions := []
  timeInput := []
  repeatInput := 1
  instructionIdRef := 0
  editingRef := false
  flattenedSequence := []
  programState := ⟨0, 0⟩
  isProgramRunning := false
  intervalActive := false
  cueCount := 0
  savedTimers := []
  savedTimerName := []
  loadedTimerId := none
  savedTimerIdRef := 0

/-! ### Instruction-list operations (page.tsx lines 54-115) -/

/-- `addTimeInstruction`: parse the time input; return unchanged on a
parse failure or a non-positive duration, otherwise append a `time`
instruction carrying the next identifier and clear the input field. -/
def addTimeInstruction (s : AppState) : AppState :=
  match parseTimeInput s.timeInput with
  | none => s
  | some seconds =>
    if seconds ≤ 0 then s
    else
      { s with
        instructions := s.instructions ++
          [Instruction.timeI ⟨s.instructionIdRef, seconds⟩]
        instructionIdRef := s.instructionIdRef + 1
        timeInput := [] }

/-- `addRepeatInstruction`: only allowed when at least one `time`
instruction exists; appends a `repeat` instruction carrying the current
`repeatInput` and the next identifier.  The count itself is not
validated here. -/
def addRepeatInstruction (s : AppState) : AppState :=
  if s.instructions.any isTimeInstr then
    { s with
      instructions := s.instructions ++
        [Instruction.repeatI s.instructionIdRef s.repeatInput]
      instructionIdRef := s.instructionIdRef + 1 }
  else s

/-- New duration for a `time` instruction being edited: `promptRes`
models the `window.prompt` return (`none` for cancel, and an empty
string is falsy in JavaScript, hence also ignored); the new value is
taken only when it parses and is positive. -/
def editTimeValue (ti : TimeInstruction)
    (promptRes : Option (List Char)) : Int :=
  match promptRes with
  | some str =>
    if str = [] then ti.time
    else
      match parseTimeInput str with
      | some ns => if 0 < ns then ns else ti.time
      | none => ti.time
  | none => ti.time

/-- New count for a `repeat` instruction being edited: `parseInt` the
prompt string and take it only when it is not NaN and positive. -/
def editRepeatValue (times : Int)
    (promptRes : Option (List Char)) : Int :=
  match promptRes with
  | some str =>
    if str = [] then times
    else
      match jsParseInt str with
      | some nr => if 0 < nr then nr else times
      | none => times
  | none => times

/-- Body of the `map` inside `editInstruction`: for the matching
identifier, replace the payload (duration or count) by the edited
value, keeping the identifier; other instructions pass through. -/
def editOne (promptRes : Option (List Char)) (id : Nat)
    (inst : Instruction) : Instruction :=
  if instId inst = id then
    match inst with
    | Instruction.timeI ti =>
        Instruction.timeI ⟨ti.id, editTimeValue ti promptRes⟩
    | Instruction.repeatI rid times =>
        Instruction.repeatI rid (editRepeatValue times promptRes)
  else inst

/-- `editInstruction`: guarded by `editingRef`; maps `editOne` over the
list (identifiers are never changed) and releases the guard. -/
def editInstruction (s : AppState) (id : Nat)
    (promptRes : Option (List Char)) : AppState :=
  if s.editingRef then s
  else
    { s with
      instructions := s.instructions.map (editOne promptRes id)
      editingRef := false }

/-- `deleteInstruction`: remove the instruction with the given
identifier. -/
def deleteInstruction (s : AppState) (id : Nat) : AppState :=
  { s with instructions := s.instructions.filter (fun i => instId i != id) }

/-- The Clear Instructions button: `setInstructions([])`. -/
def clearInstructions (s : AppState) : AppState :=
  { s with instructions := [] }

/-! ### Program execution (page.tsx lines 148-208) -/

/-- `startProgram`: flatten the instructions; refuse to start on an
empty sequence, otherwise store the flat sequence, point the program
state at its first entry and set the running flag. -/
def startProgram (s : AppState) : AppState :=
  match flattenInstructionsEntire s.instructions with
  | [] => s
  | first :: rest =>
    { s with
      flattenedSequence := first :: rest
      programState := ⟨0, first.time⟩
      isProgramRunning := true }

/-- `stopProgram`: clear the running flag and synchronously clear the
interval. -/
def stopProgram (s : AppState) : AppState :=
  { s with isProgramRunning := false, intervalActive := false }

/-- `editCurrentInstruction`: only while running; on a non-empty prompt
string that parses to a positive duration, overwrite the current flat
entry's time (keeping its identifier) and reset the countdown.  When
the current index were out of bounds the original code would throw on
reading `currentInst.time` before any state update, leaving the state
unchanged, which the `none` branch of the lookup mirrors. -/
def editCurrentInstruction (s : AppState)
    (promptRes : Option (List Char)) : AppState :=
  if s.isProgramRunning then
    match s.flattenedSequence.get? s.programState.index with
    | none => s
    | some currentInst =>
      match promptRes with
      | none => s
      | some str =>
        if str = [] then s
        else
          match parseTimeInput str with
          | none => s
          | some newSeconds =>
            if 0 < newSeconds then
              { s with
                flattenedSequence := s.flattenedSequence.set
                  s.programState.index ⟨currentInst.id, newSeconds⟩
                programState := ⟨s.programState.index, newSeconds⟩ }
            else s
  else s

/-- The `setInterval` callback (the countdown loop): no effect unless
an interval is installed; while the countdown is positive, decrement
it; at zero, fire the notification cue and either advance to the next
entry or, past the last entry, clear the running flag and keep the
program state. -/
def programTick (s : AppState) : AppState :=
  if s.intervalActive then
    let prev := s.programState
    if prev.countdown > 0 then
      { s with programState := { prev with countdown := prev.countdown - 1 } }
    else
      let s1 := { s with cueCount := s.cueCount + 1 }
      let newIndex := prev.index + 1
      if h : newIndex < s.flattenedSequence.length then
        { s1 with programState :=
            ⟨newIndex, (s.flattenedSequence.get ⟨newIndex, h⟩).time⟩ }
      else
        { s1 with isProgramRunning := false }
  else s

/-- Events of the tick machinery: a scheduled tick firing, and the
countdown `useEffect` running (which clears any stale interval and
installs a fresh one exactly when the running flag is set). -/
inductive REvent where
  | tick
  | effectRun
  deriving Repr, DecidableEq

/-- One event step. -/
def stepEvent : REvent → AppState → AppState
  | .tick, s => programTick s
  | .effectRun, s => { s with intervalActive := s.isProgramRunning }

/-- Run a list of tick-machinery events in order. -/
def runEvents (evs : List REvent) (s : AppState) : AppState :=
  evs.foldl (fun t e => stepEvent e t) s

/-! ### Saved timers (page.tsx lines 257-262) -/

/-- `loadTimer`: put a saved timer's instructions into the builder.
The instruction identifier counter is not changed. -/
def loadTimer (s : AppState) (timer : SavedTimer) : AppState :=
  { s with
    instructions := timer.instructions
    savedTimerName := timer.name
    loadedTimerId := some timer.id }

/-- The runner started on the authored list `[Wait 2, Wait 1]`, whose
flat sequence is `[2, 1]` — the start state of the specification's
runner trace. -/
def twoOneStart : AppState :=
  startProgram { initialState with
    instructions := [Instruction.timeI ⟨0, 2⟩, Instruction.timeI ⟨1, 1⟩] }

/-! ### Derived predicates used by the claims -/

/-- The identifiers of an instruction list are pairwise distinct. -/
def idsNodup (l : List Instruction) : Prop := (l.map instId).Nodup

/-- Every identifier in the list is below `k` (the next value of the
identifier counter). -/
def idsBelow (l : List Instruction) (k : Nat) : Prop :=
  ∀ i ∈ l, instId i < k

/-- Builder identifier invariant: pairwise-distinct identifiers, all
below the counter. -/
def builderInv (s : AppState) : Prop :=
  idsNodup s.instructions ∧ idsBelow s.instructions s.instructionIdRef

instance (l : List Instruction) : Decidable (idsNodup l) := by
  unfold idsNodup; infer_instance

instance (s : AppState) : Decidable (builderInv s) := by
  unfold builderInv idsNodup idsBelow; infer_instance

/-- A field that is "a non-negative integer numeral" in the sense of
the specification: a non-empty string of decimal digits.  (Stated from
the specification's words, to compare with what `parseTimeInput`
actually accepts.) -/
def isNumeralField (l : List Char) : Bool :=
  !l.isEmpty && l.all Char.isDigit

/-! ### Lemmas about the sequence expander -/

theorem flattenGo_append (acc : List TimeInstruction) (l1 l2 : List Instruction) :
    flattenGo acc (l1 ++ l2) = flattenGo (flattenGo acc l1) l2 := by
  induction l1 generalizing acc with
  | nil => rfl
  | cons i rest ih => cases i <;> simp [flattenGo, ih]

theorem mem_flattenGo (acc : List TimeInstruction) (l : List Instruction)
    (ti : TimeInstruction) (h : ti ∈ flattenGo acc l) :
    ti ∈ acc ∨ Instruction.timeI ti ∈ l := by
  induction l generalizing acc with
  | nil => exact Or.inl h
  | cons i rest ih =>
    cases i with
    | timeI tj =>
      have h2 : ti ∈ flattenGo (acc ++ [tj]) rest := h
      rcases ih _ h2 with hl | hr
      · rcases List.mem_append.mp hl with ha | hb
        · exact Or.inl ha
        · simp only [List.mem_singleton] at hb
          subst hb
          exact Or.inr (List.mem_cons_self _ _)
      · exact Or.inr (List.mem_cons_of_mem _ hr)
    | repeatI rid times =>
      have h2 : ti ∈ flattenGo
          (acc ++ (List.replicate times.toNat acc).flatten) rest := h
      rcases ih _ h2 with hl | hr
      · rcases List.mem_append.mp hl with ha | hb
        · exact Or.inl ha
        · rcases List.mem_flatten.mp hb with ⟨piece, hpiece, hmem⟩
          rcases List.eq_of_mem_replicate hpiece with rfl
          exact Or.inl hmem
      · exact Or.inr (List.mem_cons_of_mem _ hr)

/-! ### Claim theorems -/

/-- Claim C1: the sequence expander processes instructions in order; a
`Wait(d)` appends `d` to the accumulator and a `Repeat(k)` snapshots
the accumulator and appends that snapshot `k` times in order; in
particular `expand([Wait(5), Repeat(2), Wait(3)]) = [5,5,5,3]` and
`expand([Wait(2), Wait(3), Repeat(1)]) = [2,3,2,3]`. -/
theorem flatten_processes_in_order :
    (∀ (l : List Instruction) (ti : TimeInstruction),
        flattenInstructionsEntire (l ++ [Instruction.timeI ti]) =
          flattenInstructionsEntire l ++ [ti]) ∧
    (∀ (l : List Instruction) (id : Nat) (k : Nat),
        flattenInstructionsEntire (l ++ [Instruction.repeatI id (k : Int)]) =
          flattenInstructionsEntire l ++
            (List.replicate k (flattenInstructionsEntire l)).flatten) ∧
    (flattenInstructionsEntire
        [Instruction.timeI ⟨0, 5⟩, Instruction.repeatI 1 2,
         Instruction.timeI ⟨2, 3⟩]).map TimeInstruction.time = [5, 5, 5, 3] ∧
    (flattenInstructionsEntire
        [Instruction.timeI ⟨0, 2⟩, Instruction.timeI ⟨1, 3⟩,
         Instruction.repeatI 2 1]).map TimeInstruction.time = [2, 3, 2, 3] := by
  refine ⟨?_, ?_, by decide, by decide⟩
  · intro l ti
    unfold flattenInstructionsEntire
    rw [flattenGo_append]
    simp [flattenGo]
  · intro l id k
    unfold flattenInstructionsEntire
    rw [flattenGo_append]
    simp [flattenGo]

/-- Claim C7: `expand([]) = []`; starting on an empty flat sequence is
rejected and leaves the runner state unchanged; on a non-empty flat
sequence `startProgram` sets index 0 and countdown to the first
entry. -/
theorem start_rejects_empty_sequence :
    flattenInstructionsEntire [] = [] ∧
    (∀ s : AppState, flattenInstructionsEntire s.instructions = [] →
        startProgram s = s) ∧
    (∀ (s : AppState) (first : TimeInstruction) (rest : List TimeInstruction),
        flattenInstructionsEntire s.instructions = first :: rest →
        startProgram s =
          { s with
            flattenedSequence := first :: rest
            programState := ⟨0, first.time⟩
            isProgramRunning := true }) := by
  refine ⟨rfl, ?_, ?_⟩
  · intro s h
    simp only [startProgram, h]
  · intro s first rest h
    simp only [startProgram, h]

/-- Witness for C7: starting from the initial (empty) state is a no-op;
starting with one 2-second instruction yields index 0, countdown 2. -/
theorem start_rejects_empty_sequence_witness :
    startProgram initialState = initialState ∧
    startProgram { initialState with
        instructions := [Instruction.timeI ⟨0, 2⟩] } =
      { initialState with
        instructions := [Instruction.timeI ⟨0, 2⟩]
        flattenedSequence := [⟨0, 2⟩]
        programState := ⟨0, 2⟩
        isProgramRunning := true } :=
  ⟨start_rejects_empty_sequence.2.1 initialState rfl,
   start_rejects_empty_sequence.2.2 _ ⟨0, 2⟩ [] rfl⟩

/-- Claim C10: every entry of the expanded flat sequence is one of the
input's time instructions, identifier included; a repeat duplicates
entries without fresh identifiers, so the flat sequence can contain
several entries sharing an id, and patching one such slot leaves its
id-sharing duplicates untouched. -/
theorem flatten_entries_from_input :
    (∀ (instrs : List Instruction) (ti : TimeInstruction),
        ti ∈ flattenInstructionsEntire instrs →
          Instruction.timeI ti ∈ instrs) ∧
    flattenInstructionsEntire
        [Instruction.timeI ⟨0, 5⟩, Instruction.repeatI 1 1] =
      [⟨0, 5⟩, ⟨0, 5⟩] ∧
    (editCurrentInstruction
        { initialState with
          flattenedSequence := [⟨0, 5⟩, ⟨0, 5⟩]
          programState := ⟨0, 5⟩
          isProgramRunning := true }
        (some ['7'])).flattenedSequence = [⟨0, 7⟩, ⟨0, 5⟩] := by
  refine ⟨?_, by decide, by decide⟩
  intro instrs ti h
  rcases mem_flattenGo [] instrs ti h with hc | hc
  · cases hc
  · exact hc

/-- Witness for C10: the entry `⟨0, 5⟩` of the expansion of
`[Wait(id 0, 5), Repeat(id 1, 1)]` is a time instruction of the
input. -/
theorem flatten_entries_from_input_witness :
    Instruction.timeI ⟨0, 5⟩ ∈
      [Instruction.timeI ⟨0, 5⟩, Instruction.repeatI 1 1] :=
  flatten_entries_from_input.1
    [Instruction.timeI ⟨0, 5⟩, Instruction.repeatI 1 1] ⟨0, 5⟩ (by decide)

/-- Claim C2: from Idle with flat sequence `[2, 1]`, delivering
one-second ticks produces exactly the `(index, remaining)` trace
`(0,2) → (0,1) → (0,0) → (1,1) → (1,0) → Finished`, with the
notification cue fired exactly twice. -/
theorem runner_trace_two_one :
    twoOneStart.flattenedSequence.map TimeInstruction.time = [2, 1] ∧
    twoOneStart.programState = ⟨0, 2⟩ ∧
    twoOneStart.isProgramRunning = true ∧
    (runEvents [REvent.effectRun, REvent.tick] twoOneStart).programState =
      ⟨0, 1⟩ ∧
    (runEvents [REvent.effectRun, REvent.tick, REvent.tick]
      twoOneStart).programState = ⟨0, 0⟩ ∧
    (runEvents [REvent.effectRun, REvent.tick, REvent.tick, REvent.tick]
      twoOneStart).programState = ⟨1, 1⟩ ∧
    (runEvents [REvent.effectRun, REvent.tick, REvent.tick, REvent.tick,
      REvent.tick] twoOneStart).programState = ⟨1, 0⟩ ∧
    (runEvents [REvent.effectRun, REvent.tick, REvent.tick, REvent.tick,
      REvent.tick] twoOneStart).isProgramRunning = true ∧
    (runEvents [REvent.effectRun, REvent.tick, REvent.tick, REvent.tick,
      REvent.tick] twoOneStart).cueCount = 1 ∧
    (runEvents [REvent.effectRun, REvent.tick, REvent.tick, REvent.tick,
      REvent.tick, REvent.tick] twoOneStart).programState = ⟨1, 0⟩ ∧
    (runEvents [REvent.effectRun, REvent.tick, REvent.tick, REvent.tick,
      REvent.tick, REvent.tick] twoOneStart).isProgramRunning = false ∧
    (runEvents [REvent.effectRun, REvent.tick, REvent.tick, REvent.tick,
      REvent.tick, REvent.tick] twoOneStart).cueCount = 2 := by
  decide

/-! Helper lemmas for the terminal behaviour of the tick machinery. -/

theorem step_preserves_stopped (e : REvent) (t : AppState)
    (h1 : t.isProgramRunning = false) (h2 : t.intervalActive = false) :
    (stepEvent e t).programState = t.programState ∧
    (stepEvent e t).isProgramRunning = false ∧
    (stepEvent e t).intervalActive = false := by
  cases e
  · simp [stepEvent, programTick, h2, h1]
  · simp [stepEvent, h1, h2]

theorem runEvents_stopped (evs : List REvent) (t : AppState)
    (h1 : t.isProgramRunning = false) (h2 : t.intervalActive = false) :
    (runEvents evs t).programState = t.programState ∧
    (runEvents evs t).isProgramRunning = false := by
  induction evs generalizing t with
  | nil => exact ⟨rfl, h1⟩
  | cons e rest ih =>
    have h := step_preserves_stopped e t h1 h2
    have hstep : runEvents (e :: rest) t = runEvents rest (stepEvent e t) := rfl
    rw [hstep]
    rcases ih (stepEvent e t) h.2.1 h.2.2 with ⟨ha, hb⟩
    exact ⟨ha.trans h.1, hb⟩

theorem step_preserves_stuck (e : REvent) (t : AppState)
    (h1 : t.programState.countdown ≤ 0)
    (h2 : t.flattenedSequence.length ≤ t.programState.index + 1) :
    (stepEvent e t).programState = t.programState ∧
    (stepEvent e t).flattenedSequence = t.flattenedSequence := by
  cases e
  · by_cases hI : t.intervalActive
    · have hc : ¬ t.programState.countdown > 0 := by omega
      have hn : ¬ t.programState.index + 1 < t.flattenedSequence.length := by
        omega
      constructor <;> simp [stepEvent, programTick, hI, hc, hn]
    · constructor <;> simp [stepEvent, programTick, hI]
  · exact ⟨rfl, rfl⟩

theorem runEvents_stuck (evs : List REvent) (t : AppState)
    (h1 : t.programState.countdown ≤ 0)
    (h2 : t.flattenedSequence.length ≤ t.programState.index + 1) :
    (runEvents evs t).programState = t.programState := by
  induction evs generalizing t with
  | nil => rfl
  | cons e rest ih =>
    have h := step_preserves_stuck e t h1 h2
    have hstep : runEvents (e :: rest) t = runEvents rest (stepEvent e t) := rfl
    rw [hstep]
    have h1x : (stepEvent e t).programState.countdown ≤ 0 := by
      rw [h.1]; exact h1
    have h2x : (stepEvent e t).flattenedSequence.length ≤
        (stepEvent e t).programState.index + 1 := by
      rw [h.1, h.2]; exact h2
    exact (ih (stepEvent e t) h1x h2x).trans h.1

theorem finish_gives_stuck (s : AppState) (hrun : s.isProgramRunning = true)
    (hfin : (programTick s).isProgramRunning = false) :
    (programTick s).programState = s.programState ∧
    (programTick s).flattenedSequence = s.flattenedSequence ∧
    s.programState.countdown ≤ 0 ∧
    s.flattenedSequence.length ≤ s.programState.index + 1 := by
  by_cases hI : s.intervalActive
  · by_cases hc : s.programState.countdown > 0
    · exfalso
      simp [programTick, hI, hc] at hfin
      rw [hrun] at hfin
      exact Bool.noConfusion hfin
    · by_cases hn : s.programState.index + 1 < s.flattenedSequence.length
      · exfalso
        simp [programTick, hI, hc, hn] at hfin
        rw [hrun] at hfin
        exact Bool.noConfusion hfin
      · refine ⟨?_, ?_, by omega, by omega⟩ <;>
          simp [programTick, hI, hc, hn]
  · exfalso
    simp [programTick, hI] at hfin
    rw [hrun] at hfin
    exact Bool.noConfusion hfin

/-- Claim C3: once `stopProgram` is called, or the tick machinery has
reached Finished, the program state `(index, countdown)` is never
mutated again by any sequence of further tick-machinery events
(pending ticks and effect runs included). -/
theorem no_tick_after_stop_or_finish :
    (∀ (s : AppState) (evs : List REvent),
        (runEvents evs (stopProgram s)).programState = s.programState ∧
        (runEvents evs (stopProgram s)).isProgramRunning = false) ∧
    (∀ (s : AppState) (evs : List REvent),
        s.isProgramRunning = true →
        (programTick s).isProgramRunning = false →
        (runEvents evs (programTick s)).programState =
          (programTick s).programState) := by
  constructor
  · intro s evs
    exact runEvents_stopped evs (stopProgram s) rfl rfl
  · intro s evs hrun hfin
    rcases finish_gives_stuck s hrun hfin with ⟨hp, hf, hc, hl⟩
    refine runEvents_stuck evs (programTick s) ?_ ?_
    · rw [hp]; exact hc
    · rw [hp, hf]; exact hl

/-- Witness for C3: a concrete run that has just finished (flat
sequence `[1]`, countdown 0 at its last entry) is not mutated by a
stale tick, an effect run, and another tick. -/
theorem no_tick_after_stop_or_finish_witness :
    let sW : AppState := { initialState with
        flattenedSequence := [⟨0, 1⟩]
        programState := ⟨0, 0⟩
        isProgramRunning := true
        intervalActive := true }
    (runEvents [REvent.tick, REvent.effectRun, REvent.tick]
        (programTick sW)).programState = (programTick sW).programState := by
  intro sW
  exact no_tick_after_stop_or_finish.2 sW
    [REvent.tick, REvent.effectRun, REvent.tick] rfl (by decide)

/-- Claim C6 counterexample: with a `Wait` present and the non-positive
count 0 in the repeat field, `addRepeatInstruction` appends a
`Repeat(0)` instead of leaving the instruction list unchanged. -/
theorem addRepeat_nonpositive_cx :
    let s : AppState := { initialState with
        instructions := [Instruction.timeI ⟨0, 5⟩]
        instructionIdRef := 1
        repeatInput := 0 }
    s.repeatInput ≤ 0 ∧
    (addRepeatInstruction s).instructions =
      [Instruction.timeI ⟨0, 5⟩, Instruction.repeatI 1 0] ∧
    (addRepeatInstruction s).instructions ≠ s.instructions := by
  decide

/-- Claim C6 (amended): `addRepeatInstruction` leaves the instruction
list unchanged exactly when no `Wait` instruction exists anywhere in
it; when a `Wait` exists it appends a `Repeat` carrying the next
identifier and the current count, whatever the count's sign — the
count is not validated by this operation. -/
theorem addRepeat_characterization (s : AppState) :
    ((∀ i ∈ s.instructions, isTimeInstr i = false) →
        addRepeatInstruction s = s) ∧
    ((∃ i ∈ s.instructions, isTimeInstr i = true) →
        addRepeatInstruction s =
          { s with
            instructions := s.instructions ++
              [Instruction.repeatI s.instructionIdRef s.repeatInput]
            instructionIdRef := s.instructionIdRef + 1 }) := by
  constructor
  · intro h
    have hany : s.instructions.any isTimeInstr = false := by
      rw [List.any_eq_false]
      intro i hi
      simp [h i hi]
    simp [addRepeatInstruction, hany]
  · rintro ⟨i, hi, hit⟩
    have hany : s.instructions.any isTimeInstr = true :=
      List.any_eq_true.mpr ⟨i, hi, hit⟩
    simp [addRepeatInstruction, hany]

/-- Witness for C6 (amended): with one `Wait` and count 1, a `Repeat`
with the next identifier is appended. -/
theorem addRepeat_characterization_witness :
    let s : AppState := { initialState with
        instructions := [Instruction.timeI ⟨0, 5⟩]
        instructionIdRef := 1 }
    addRepeatInstruction s =
      { s with
        instructions := s.instructions ++ [Instruction.repeatI 1 1]
        instructionIdRef := 2 } := by
  intro s
  exact (addRepeat_characterization s).2
    ⟨Instruction.timeI ⟨0, 5⟩, List.mem_cons_self _ _, rfl⟩

/-! Helper lemmas for the identifier invariant. -/

theorem idsStep (l : List Instruction) (k : Nat) (i : Instruction)
    (hn : (l.map instId).Nodup) (hb : ∀ j ∈ l, instId j < k)
    (hid : instId i = k) :
    ((l ++ [i]).map instId).Nodup ∧ ∀ j ∈ l ++ [i], instId j < k + 1 := by
  constructor
  · rw [List.map_append, List.nodup_append]
    refine ⟨hn, by simp, ?_⟩
    intro x hx
    rcases List.mem_map.mp hx with ⟨j, hj, rfl⟩
    have := hb j hj
    simp only [List.map_cons, List.map_nil, List.mem_singleton, hid]
    omega
  · intro j hj
    rcases List.mem_append.mp hj with hj | hj
    · have := hb j hj; omega
    · simp only [List.mem_singleton] at hj
      subst hj
      omega

theorem instId_editOne (p : Option (List Char)) (id : Nat)
    (i : Instruction) : instId (editOne p id i) = instId i := by
  cases i <;> unfold editOne <;> split <;> rfl

theorem map_editOne_ids (p : Option (List Char)) (id : Nat)
    (l : List Instruction) :
    (l.map (editOne p id)).map instId = l.map instId := by
  induction l with
  | nil => rfl
  | cons a t ih => simp [instId_editOne, ih]

/-- Claim C8 counterexample: `loadTimer` does not re-synchronise the
identifier counter, so loading a timer persisted by an earlier session
(instruction id 0, counter still 0) and then adding a 5-second wait
produces two instructions with identifier 0. -/
theorem duplicate_id_after_load_cx :
    ¬ idsNodup (addTimeInstruction
        { loadTimer initialState ⟨0, [], [Instruction.timeI ⟨0, 5⟩]⟩ with
          timeInput := ['5'] }).instructions := by
  decide

/-- Claim C8 (amended): identifiers stay pairwise distinct (and below
the counter) under every builder operation — adding a wait, adding a
repeat, editing, deleting, clearing — provided they were before;
`loadTimer` preserves the invariant only when the loaded instructions
themselves carry distinct identifiers below the current counter, which
loading a timer saved in an earlier session need not satisfy. -/
theorem builder_id_invariant (s : AppState) (h : builderInv s) :
    builderInv (addTimeInstruction s) ∧
    builderInv (addRepeatInstruction s) ∧
    (∀ (id : Nat) (p : Option (List Char)),
        builderInv (editInstruction s id p)) ∧
    (∀ id : Nat, builderInv (deleteInstruction s id)) ∧
    builderInv (clearInstructions s) ∧
    (∀ timer : SavedTimer, idsNodup timer.instructions →
        idsBelow timer.instructions s.instructionIdRef →
        builderInv (loadTimer s timer)) := by
  obtain ⟨hn, hb⟩ := h
  refine ⟨?_, ?_, ?_, ?_, ?_, ?_⟩
  · rcases hp : parseTimeInput s.timeInput with _ | seconds
    · simpa [addTimeInstruction, hp] using ⟨hn, hb⟩
    · by_cases hpos : seconds ≤ 0
      · simpa [addTimeInstruction, hp, hpos] using ⟨hn, hb⟩
      · have step := idsStep s.instructions s.instructionIdRef
          (Instruction.timeI ⟨s.instructionIdRef, seconds⟩) hn hb rfl
        simpa [addTimeInstruction, hp, hpos, builderInv, idsNodup, idsBelow]
          using step
  · by_cases hany : s.instructions.any isTimeInstr
    · have step := idsStep s.instructions s.instructionIdRef
        (Instruction.repeatI s.instructionIdRef s.repeatInput) hn hb rfl
      simpa [addRepeatInstruction, hany, builderInv, idsNodup, idsBelow]
        using step
    · simpa [addRepeatInstruction, hany] using ⟨hn, hb⟩
  · intro id p
    by_cases hg : s.editingRef
    · simpa [editInstruction, hg] using ⟨hn, hb⟩
    · have heq : editInstruction s id p =
          { s with
            instructions := s.instructions.map (editOne p id)
            editingRef := false } := by
        simp [editInstruction, hg]
      rw [heq]
      constructor
      · show ((s.instructions.map (editOne p id)).map instId).Nodup
        rw [map_editOne_ids]
        exact hn
      · intro j hj
        rcases List.mem_map.mp hj with ⟨a, ha, rfl⟩
        rw [instId_editOne]
        exact hb a ha
  · intro id
    constructor
    · show ((s.instructions.filter
          (fun i => instId i != id)).map instId).Nodup
      exact hn.sublist ((List.filter_sublist _).map instId)
    · intro j hj
      exact hb j (List.mem_of_mem_filter hj)
  · exact ⟨List.nodup_nil, by intro j hj; cases hj⟩
  · intro timer htn htb
    exact ⟨htn, htb⟩

/-- Witness for C8 (amended): the invariant holds after clearing the
initial state's instruction list. -/
theorem builder_id_invariant_witness :
    builderInv (clearInstructions initialState) :=
  (builder_id_invariant initialState (by decide)).2.2.2.2.1

/-- Claim C9: `editCurrentInstruction` is a no-op unless running; while
running, with a valid positive new duration, it overwrites the current
flat-sequence entry (keeping its identifier) and resets the countdown
to the new duration, and changes nothing else — entries at other
indices, the current index, and the authored instruction list are
unchanged. -/
theorem patchCurrent_frame :
    (∀ (s : AppState) (p : Option (List Char)),
        s.isProgramRunning = false → editCurrentInstruction s p = s) ∧
    (∀ (s : AppState) (str : List Char) (d : Int) (old : TimeInstruction),
        s.isProgramRunning = true →
        s.flattenedSequence[s.programState.index]? = some old →
        str ≠ [] →
        parseTimeInput str = some d →
        0 < d →
        editCurrentInstruction s (some str) =
          { s with
            flattenedSequence := s.flattenedSequence.set
              s.programState.index ⟨old.id, d⟩
            programState := ⟨s.programState.index, d⟩ } ∧
        (∀ j : Nat, j ≠ s.programState.index →
            (editCurrentInstruction s (some str)).flattenedSequence[j]? =
              s.flattenedSequence[j]?) ∧
        (editCurrentInstruction s (some str)).instructions = s.instructions ∧
        (editCurrentInstruction s (some str)).programState.index =
          s.programState.index) := by
  constructor
  · intro s p h
    simp [editCurrentInstruction, h]
  · intro s str d old hrun hold hstr hparse hpos
    have heq : editCurrentInstruction s (some str) =
        { s with
          flattenedSequence := s.flattenedSequence.set
            s.programState.index ⟨old.id, d⟩
          programState := ⟨s.programState.index, d⟩ } := by
      simp [editCurrentInstruction, hrun, hold, hstr, hparse, hpos]
    refine ⟨heq, ?_, ?_, ?_⟩
    · intro j hj
      rw [heq]
      exact List.getElem?_set_ne (fun hx => hj hx.symm)
    · rw [heq]
    · rw [heq]

/-- Witness for C9: patching the first entry of `[⟨0,5⟩, ⟨1,4⟩]` to 7
while running yields `[⟨0,7⟩, ⟨1,4⟩]` with countdown 7 and leaves the
second entry alone. -/
theorem patchCurrent_frame_witness :
    let s : AppState := { initialState with
        flattenedSequence := [⟨0, 5⟩, ⟨1, 4⟩]
        programState := ⟨0, 5⟩
        isProgramRunning := true }
    editCurrentInstruction s (some ['7']) =
      { s with
        flattenedSequence := [⟨0, 7⟩, ⟨1, 4⟩]
        programState := ⟨0, 7⟩ } := by
  intro s
  exact (patchCurrent_frame.2 s ['7'] 7 ⟨0, 5⟩ rfl rfl (by decide)
    (by decide) (by decide)).1

/-! Helper lemmas about digit strings, `splitCols` and `jsParseInt`. -/

theorem digitChar_isDigit (k : Nat) (hk : k < 10) :
    (Char.ofNat (48 + k)).isDigit = true := by
  interval_cases k <;> decide

theorem digitVal_digitChar (k : Nat) (hk : k < 10) :
    digitVal (Char.ofNat (48 + k)) = k := by
  interval_cases k <;> decide

theorem natDigits_all_digits (n : Nat) :
    ∀ c ∈ natDigits n, c.isDigit = true := by
  induction n using Nat.strong_induction_on with
  | _ n ih =>
    rw [natDigits]
    split
    · next h =>
      intro c hc
      simp only [List.mem_singleton] at hc
      subst hc
      exact digitChar_isDigit n h
    · next h =>
      intro c hc
      rcases List.mem_append.mp hc with hm | hm
      · exact ih (n / 10) (Nat.div_lt_self (by omega) (by omega)) c hm
      · simp only [List.mem_singleton] at hm
        subst hm
        exact digitChar_isDigit (n % 10) (Nat.mod_lt _ (by omega))

theorem digitsToNat_append_one (xs : List Char) (c : Char) :
    digitsToNat (xs ++ [c]) = digitsToNat xs * 10 + digitVal c := by
  simp [digitsToNat, List.foldl_append]

theorem digitsToNat_natDigits (n : Nat) :
    digitsToNat (natDigits n) = n := by
  induction n using Nat.strong_induction_on with
  | _ n ih =>
    rw [natDigits]
    split
    · next h =>
      have h1 : digitsToNat [Char.ofNat (48 + n)] =
          digitVal (Char.ofNat (48 + n)) := by
        simp [digitsToNat]
      rw [h1, digitVal_digitChar n h]
    · next h =>
      rw [digitsToNat_append_one,
        ih (n / 10) (Nat.div_lt_self (by omega) (by omega)),
        digitVal_digitChar (n % 10) (Nat.mod_lt _ (by omega))]
      omega

theorem digitsToNat_replicate_zero (k : Nat) (l : List Char) :
    digitsToNat (List.replicate k '0' ++ l) = digitsToNat l := by
  induction k with
  | zero => rfl
  | succ k ih =>
    calc digitsToNat (List.replicate (k + 1) '0' ++ l)
        = digitsToNat (List.replicate k '0' ++ l) := rfl
      _ = digitsToNat l := ih

theorem digitsToNat_padStart2 (l : List Char) :
    digitsToNat (padStart2 l) = digitsToNat l := by
  unfold padStart2
  split
  · exact digitsToNat_replicate_zero _ _
  · rfl

theorem padStart2_all_digits (l : List Char)
    (h : ∀ c ∈ l, c.isDigit = true) :
    ∀ c ∈ padStart2 l, c.isDigit = true := by
  unfold padStart2
  split
  · intro c hc
    rcases List.mem_append.mp hc with hr | hl
    · rcases List.eq_of_mem_replicate hr with rfl
      decide
    · exact h c hl
  · exact h

theorem padStart2_ne_nil (l : List Char) : padStart2 l ≠ [] := by
  unfold padStart2
  split
  · next hlen =>
    intro hc
    rcases List.append_eq_nil.mp hc with ⟨h1, rfl⟩
    simp at h1
  · next hlen =>
    intro hc
    rw [hc] at hlen
    simp at hlen

theorem splitCols_no_colon (a : List Char) (h : ':' ∉ a) :
    splitCols a = [a] := by
  induction a with
  | nil => rfl
  | cons c cs ih =>
    have hc : ¬ (c = ':') := by
      intro hcc
      subst hcc
      exact h (List.mem_cons_self _ _)
    have hcs : ':' ∉ cs := fun hm => h (List.mem_cons_of_mem _ hm)
    simp [splitCols, hc, ih hcs]

theorem splitCols_append (a r : List Char) (h : ':' ∉ a) :
    splitCols (a ++ ':' :: r) = a :: splitCols r := by
  induction a with
  | nil => simp [splitCols]
  | cons c cs ih =>
    have hc : ¬ (c = ':') := by
      intro hcc
      subst hcc
      exact h (List.mem_cons_self _ _)
    have hcs : ':' ∉ cs := fun hm => h (List.mem_cons_of_mem _ hm)
    simp [splitCols, hc, ih hcs]

theorem takeWhile_all (p : Char → Bool) (l : List Char)
    (h : ∀ c ∈ l, p c = true) : l.takeWhile p = l := by
  induction l with
  | nil => rfl
  | cons c cs ih =>
    simp [List.takeWhile_cons, h c (List.mem_cons_self _ _),
      ih (fun d hd => h d (List.mem_cons_of_mem _ hd))]

theorem isDigit_not_ws (c : Char) (h : c.isDigit = true) :
    isJSWhitespace c = false := by
  by_contra hw
  rw [Bool.not_eq_false] at hw
  simp only [isJSWhitespace, Bool.or_eq_true, decide_eq_true_eq] at hw
  rcases hw with ((((hc | hc) | hc) | hc) | hc) | hc <;> subst hc <;>
    exact absurd h (by decide)

theorem jsParseInt_digits (l : List Char) (hne : l ≠ [])
    (h : ∀ c ∈ l, c.isDigit = true) :
    jsParseInt l = some (digitsToNat l : Int) := by
  rcases l with _ | ⟨c, cs⟩
  · exact absurd rfl hne
  · have hc := h c (List.mem_cons_self _ _)
    have hdrop : (c :: cs).dropWhile isJSWhitespace = c :: cs := by
      simp [List.dropWhile_cons, isDigit_not_ws c hc]
    have hp : ¬ (c = '+') := by
      intro hcc
      subst hcc
      exact absurd hc (by decide)
    have hm : ¬ (c = '-') := by
      intro hcc
      subst hcc
      exact absurd hc (by decide)
    unfold jsParseInt
    rw [hdrop]
    simp only [if_neg hp, if_neg hm]
    unfold jsParseDigits
    rw [takeWhile_all _ _ h]
    simp

/-- Claim C4: for every non-negative integer `t`,
`parseTimeInput (formatTime t) = t` — parsing is the exact inverse of
formatting on non-negative integer second totals. -/
theorem parse_format_roundTrip (t : Nat) :
    parseTimeInput (formatTime t) = some (t : Int) := by
  have hAd := padStart2_all_digits _ (natDigits_all_digits (t / 3600))
  have hBd := padStart2_all_digits _ (natDigits_all_digits (t % 3600 / 60))
  have hCd := padStart2_all_digits _ (natDigits_all_digits (t % 60))
  have hAnc : ':' ∉ padStart2 (natDigits (t / 3600)) :=
    fun hm => absurd (hAd _ hm) (by decide)
  have hBnc : ':' ∉ padStart2 (natDigits (t % 3600 / 60)) :=
    fun hm => absurd (hBd _ hm) (by decide)
  have hCnc : ':' ∉ padStart2 (natDigits (t % 60)) :=
    fun hm => absurd (hCd _ hm) (by decide)
  have hsplit : splitCols (formatTime t) =
      [padStart2 (natDigits (t / 3600)),
       padStart2 (natDigits (t % 3600 / 60)),
       padStart2 (natDigits (t % 60))] := by
    show splitCols (padStart2 (natDigits (t / 3600)) ++ ':' ::
        (padStart2 (natDigits (t % 3600 / 60)) ++ ':' ::
          padStart2 (natDigits (t % 60)))) = _
    rw [splitCols_append _ _ hAnc, splitCols_append _ _ hBnc,
      splitCols_no_colon _ hCnc]
  have hA : jsParseInt (padStart2 (natDigits (t / 3600))) =
      some ((t / 3600 : Nat) : Int) := by
    rw [jsParseInt_digits _ (padStart2_ne_nil _) hAd, digitsToNat_padStart2,
      digitsToNat_natDigits]
  have hB : jsParseInt (padStart2 (natDigits (t % 3600 / 60))) =
      some ((t % 3600 / 60 : Nat) : Int) := by
    rw [jsParseInt_digits _ (padStart2_ne_nil _) hBd, digitsToNat_padStart2,
      digitsToNat_natDigits]
  have hC : jsParseInt (padStart2 (natDigits (t % 60))) =
      some ((t % 60 : Nat) : Int) := by
    rw [jsParseInt_digits _ (padStart2_ne_nil _) hCd, digitsToNat_padStart2,
      digitsToNat_natDigits]
  unfold parseTimeInput
  rw [hsplit]
  simp only [List.map_cons, List.map_nil, hA, hB, hC, List.any_cons,
    List.any_nil, Option.isNone_some, Bool.or_self, Bool.or_false,
    Bool.false_eq_true, if_false]
  rw [Option.some_inj]
  push_cast
  omega

/-- Claim C5 counterexample: the input `"1x"` consists of a single
field that is not a non-negative integer numeral, yet `parseTimeInput`
accepts it and returns 1 (JavaScript `parseInt` reads the digit prefix
and ignores the trailing characters) instead of failing. -/
theorem parseTimeInput_lenient_cx :
    parseTimeInput ['1', 'x'] = some 1 ∧
    splitCols ['1', 'x'] = [['1', 'x']] ∧
    isNumeralField ['1', 'x'] = false := by
  decide

/-- Claim C5 (amended): `parseTimeInput` fails exactly when the colon
field count is not 1, 2 or 3 or some field is NaN under `parseInt`;
fields are parsed leniently by `parseInt` (leading whitespace, a sign
and trailing non-digits are tolerated), not as strict numerals; with 3,
2 or 1 accepted fields the result is the `HH:MM:SS`, `MM:SS` or `SS`
interpretation of the fields' `parseInt` values. -/
theorem parseTimeInput_characterization (input : List Char) :
    (parseTimeInput input = none ↔
      (((splitCols input).map jsParseInt).any Option.isNone = true ∨
        ¬((splitCols input).length = 1 ∨ (splitCols input).length = 2 ∨
          (splitCols input).length = 3))) ∧
    (∀ a b c : List Char, splitCols input = [a, b, c] →
        ∀ x y z : Int, jsParseInt a = some x → jsParseInt b = some y →
          jsParseInt c = some z →
          parseTimeInput input = some (x * 3600 + y * 60 + z)) ∧
    (∀ a b : List Char, splitCols input = [a, b] →
        ∀ x y : Int, jsParseInt a = some x → jsParseInt b = some y →
          parseTimeInput input = some (x * 60 + y)) ∧
    (∀ a : List Char, splitCols input = [a] →
        ∀ x : Int, jsParseInt a = some x →
          parseTimeInput input = some x) := by
  refine ⟨?_, ?_, ?_, ?_⟩
  · cases hany : ((splitCols input).map jsParseInt).any Option.isNone with
    | true => simp [parseTimeInput, hany]
    | false =>
      have hall := List.any_eq_false.mp hany
      rcases hs : splitCols input with _ | ⟨a, _ | ⟨b, _ | ⟨c, _ | ⟨d, rest⟩⟩⟩⟩
      · rw [hs] at hany
        simp [parseTimeInput, hs, hany]
      · obtain ⟨xa, hxa⟩ : ∃ x, jsParseInt a = some x := by
          have hsome := hall (jsParseInt a) (by rw [hs]; simp)
          rcases hja : jsParseInt a with _ | x
          · rw [hja] at hsome; simp at hsome
          · exact ⟨x, rfl⟩
        simp [parseTimeInput, hs, hxa]
      · obtain ⟨xa, hxa⟩ : ∃ x, jsParseInt a = some x := by
          have hsome := hall (jsParseInt a) (by rw [hs]; simp)
          rcases hja : jsParseInt a with _ | x
          · rw [hja] at hsome; simp at hsome
          · exact ⟨x, rfl⟩
        obtain ⟨xb, hxb⟩ : ∃ x, jsParseInt b = some x := by
          have hsome := hall (jsParseInt b) (by rw [hs]; simp)
          rcases hjb : jsParseInt b with _ | x
          · rw [hjb] at hsome; simp at hsome
          · exact ⟨x, rfl⟩
        simp [parseTimeInput, hs, hxa, hxb]
      · obtain ⟨xa, hxa⟩ : ∃ x, jsParseInt a = some x := by
          have hsome := hall (jsParseInt a) (by rw [hs]; simp)
          rcases hja : jsParseInt a with _ | x
          · rw [hja] at hsome; simp at hsome
          · exact ⟨x, rfl⟩
        obtain ⟨xb, hxb⟩ : ∃ x, jsParseInt b = some x := by
          have hsome := hall (jsParseInt b) (by rw [hs]; simp)
          rcases hjb : jsParseInt b with _ | x
          · rw [hjb] at hsome; simp at hsome
          · exact ⟨x, rfl⟩
        obtain ⟨xc, hxc⟩ : ∃ x, jsParseInt c = some x := by
          have hsome := hall (jsParseInt c) (by rw [hs]; simp)
          rcases hjc : jsParseInt c with _ | x
          · rw [hjc] at hsome; simp at hsome
          · exact ⟨x, rfl⟩
        simp [parseTimeInput, hs, hxa, hxb, hxc]
      · rw [hs] at hany
        simp [parseTimeInput, hs, hany]
  · intro a b c hs x y z hx hy hz
    simp [parseTimeInput, hs, hx, hy, hz]
  · intro a b hs x y hx hy
    simp [parseTimeInput, hs, hx, hy]
  · intro a hs x hx
    simp [parseTimeInput, hs, hx]

/-- Witness for C5 (amended): the three-field numeral input
`"1:2:3"` parses to 3723 seconds. -/
theorem parseTimeInput_characterization_witness :
    parseTimeInput ['1', ':', '2', ':', '3'] = some 3723 := by
  have h := (parseTimeInput_characterization ['1', ':', '2', ':', '3']).2.1
    ['1'] ['2'] ['3'] (by decide) 1 2 3 (by decide) (by decide) (by decide)
  simpa using h

end SuperTimer
